import Mathlib

/-!
Shallow embedding of the history-aggregation core of `gogitstats` (`main.go`,
`analyzeGitHistoryByBranch` and its helpers), together with theorems checking
the specification's claims about it.

Strings are manipulated through their character lists so that every
definition reduces in the kernel.  Go's `strings.Split`, `strings.Contains`,
`strings.TrimSpace`, `strconv.Atoi`, `time.Parse("2006-01-02")` and
`Time.ISOWeek` are modelled by the functions below.
-/

namespace GoGitStats

/-- Model of Go `strings.Split` for a one-character separator:
splits on every occurrence, keeping empty fields; `Split("", sep) = [""]`. -/
def splitOnChar (c : Char) : List Char → List (List Char)
  | [] => [[]]
  | x :: xs =>
    let r := splitOnChar c xs
    if x = c then [] :: r
    else
      match r with
      | [] => [[x]]
      | h :: t => (x :: h) :: t

/-- Model of Go `strings.Contains(line, sub)` for a one-character `sub`. -/
def containsChar (s : String) (c : Char) : Bool :=
  s.data.contains c

/-- Rebuild a `String` from a character list. -/
def strOf (l : List Char) : String :=
  ⟨l⟩

/-- ASCII decimal digit test. -/
def isDigitChar (c : Char) : Bool :=
  48 ≤ c.toNat && c.toNat ≤ 57

/-- Value of a list of decimal digits, most significant first. -/
def digitsToNat (l : List Char) : Nat :=
  l.foldl (fun a c => a * 10 + (c.toNat - 48)) 0

/-- Model of Go `strconv.Atoi` with the error ignored (as the source does):
an optional sign followed by at least one digit yields the signed value,
anything else yields `0`. -/
def atoiChars : List Char → Int
  | [] => 0
  | '+' :: rest =>
    if rest ≠ [] ∧ rest.all isDigitChar = true then (digitsToNat rest : Int) else 0
  | '-' :: rest =>
    if rest ≠ [] ∧ rest.all isDigitChar = true then -(digitsToNat rest : Int) else 0
  | l =>
    if l.all isDigitChar = true then (digitsToNat l : Int) else 0

/-- Gregorian leap-year rule, as in Go's `time` package. -/
def isLeapYear (y : Nat) : Bool :=
  y % 4 = 0 && (y % 100 ≠ 0 || y % 400 = 0)

/-- Days in a month, as Go's `time` date validation uses. -/
def daysInMonth (y m : Nat) : Nat :=
  if m = 2 then (if isLeapYear y then 29 else 28)
  else if m = 4 ∨ m = 6 ∨ m = 9 ∨ m = 11 then 30
  else 31

/-- Model of Go `time.Parse("2006-01-02", s)`: exactly four digits, a dash,
two digits, a dash, two digits, with the month in 1..12 and the day valid
for that month; any other input is a parse error. -/
def parseDate (s : String) : Option (Nat × Nat × Nat) :=
  match s.data with
  | [y1, y2, y3, y4, c1, m1, m2, c2, d1, d2] =>
    if c1 = '-' ∧ c2 = '-' ∧ [y1, y2, y3, y4, m1, m2, d1, d2].all isDigitChar = true then
      let y := digitsToNat [y1, y2, y3, y4]
      let m := digitsToNat [m1, m2]
      let d := digitsToNat [d1, d2]
      if 1 ≤ m ∧ m ≤ 12 ∧ 1 ≤ d ∧ d ≤ daysInMonth y m then some (y, m, d) else none
    else none
  | _ => none

/-- Days in the months of year `y` strictly before month `m` (for `m` in 1..12). -/
def daysBeforeMonth (y m : Nat) : Nat :=
  let base := [0, 31, 59, 90, 120, 151, 181, 212, 243, 273, 304, 334].getD (m - 1) 0
  if 3 ≤ m ∧ isLeapYear y = true then base + 1 else base

/-- One-based ordinal day of the year. -/
def dayOfYear (y m d : Nat) : Nat :=
  daysBeforeMonth y m + d

/-- Days in the proleptic Gregorian years `0, 1, ..., y - 1`. -/
def daysBeforeYear (y : Nat) : Nat :=
  365 * y + (y + 3) / 4 - (y + 99) / 100 + (y + 399) / 400

/-- Zero-based absolute day index of a date, day 0 being 0000-01-01. -/
def absDay (y m d : Nat) : Nat :=
  daysBeforeYear y + dayOfYear y m d - 1

/-- ISO weekday of a date: 1 = Monday, ..., 7 = Sunday.
Day 0 (0000-01-01) is a Saturday in the proleptic Gregorian calendar. -/
def isoWeekday (y m d : Nat) : Nat :=
  (absDay y m d + 5) % 7 + 1

/-- Number of ISO-8601 weeks in year `y`: 53 when January 1 falls on a
Thursday, or on a Wednesday of a leap year; otherwise 52. -/
def isoWeeksInYear (y : Nat) : Nat :=
  if isoWeekday y 1 1 = 4 ∨ (isLeapYear y = true ∧ isoWeekday y 1 1 = 3) then 53 else 52

/-- Model of Go `Time.ISOWeek`: the ISO-8601 week-year and week number of a
date, via the ordinal-day formula with the year-boundary corrections. -/
def isoWeek (y m d : Nat) : Nat × Nat :=
  let w0 := (dayOfYear y m d + 10 - isoWeekday y m d) / 7
  if w0 = 0 then (y - 1, isoWeeksInYear (y - 1))
  else if isoWeeksInYear y < w0 then (y + 1, 1)
  else (y, w0)

/-- Model of Go `fmt.Sprintf("%02d", n)` for a non-negative `n`. -/
def pad2 (n : Nat) : String :=
  if n < 10 then "0" ++ Nat.repr n else Nat.repr n

/-- Upper-cased three-letter month abbreviation:
`strings.ToUpper(month.String()[:3])` in the source. -/
def monthAbbrevUpper (m : Nat) : String :=
  match m with
  | 1 => "JAN"
  | 2 => "FEB"
  | 3 => "MAR"
  | 4 => "APR"
  | 5 => "MAY"
  | 6 => "JUN"
  | 7 => "JUL"
  | 8 => "AUG"
  | 9 => "SEP"
  | 10 => "OCT"
  | 11 => "NOV"
  | 12 => "DEC"
  | _ => ""

/-- Month-mode bucket key, as built by the source:
`strings.ToUpper(fmt.Sprintf("%d-%s", year, month.String()[:3]))`. -/
def monthBucketKey (y m : Nat) : String :=
  Nat.repr y ++ "-" ++ monthAbbrevUpper m

/-- Week-mode bucket key, as built by the source:
`fmt.Sprintf("%d-%02d", dateParsed.Year(), week)` where `week` is the ISO
week number — note the calendar year `Year()`, not the ISO week-year. -/
def weekBucketKey (y m d : Nat) : String :=
  Nat.repr y ++ "-" ++ pad2 (isoWeek y m d).2

/-- Modelled from the spec: the week bucket key the specification describes,
the ISO week-year (not the calendar year) with the ISO week number,
zero-padded.  Used only to compare against `weekBucketKey`. -/
def isoWeekYearKeySpec (y m d : Nat) : String :=
  Nat.repr (isoWeek y m d).1 ++ "-" ++ pad2 (isoWeek y m d).2

/-- The `UserContribution` record of the source, one per author per branch.
`linesAdded`/`linesRemoved`/`linesEdited` are Go `int`s and may go negative,
hence `Int`. -/
structure UserContribution where
  email : String
  commitCount : Nat
  contributionTimeline : List (String × Nat)
  linesAdded : Int
  linesRemoved : Int
  linesEdited : Int
  fileFilter : String
  deriving DecidableEq, Repr

/-- The record created on first sighting of an author
(zero value of every counter, empty timeline). -/
def freshRecord (email fileFilter : String) : UserContribution :=
  { email := email
    commitCount := 0
    contributionTimeline := []
    linesAdded := 0
    linesRemoved := 0
    linesEdited := 0
    fileFilter := fileFilter }

/-- First-match association-list lookup: the model of reading a Go map. -/
def mapLookup {α : Type} : List (String × α) → String → Option α
  | [], _ => none
  | (k, v) :: rest, a => if k = a then some v else mapLookup rest a

/-- Apply `f` to the value stored under `k`, if present. -/
def updateAt {α : Type} : List (String × α) → String → (α → α) → List (String × α)
  | [], _, _ => []
  | (k, v) :: rest, a, f =>
    if k = a then (k, f v) :: rest else (k, v) :: updateAt rest a f

/-- Model of the source's lazily-creating map read: insert a fresh record
under `email` when no record exists yet. -/
def ensureRecord (m : List (String × UserContribution)) (email fileFilter : String) :
    List (String × UserContribution) :=
  match mapLookup m email with
  | some _ => m
  | none => m ++ [(email, freshRecord email fileFilter)]

/-- Model of Go's `m[key]++` on a `map[string]int`: a missing key reads as 0. -/
def bumpKey (m : List (String × Nat)) (k : String) : List (String × Nat) :=
  match mapLookup m k with
  | some _ => updateAt m k (· + 1)
  | none => m ++ [(k, 1)]

/-- Model of Go's `m[key] = v` map write (replace or append). -/
def mapInsert {α : Type} : List (String × α) → String → α → List (String × α)
  | [], k, v => [(k, v)]
  | (k', v') :: rest, k, v =>
    if k' = k then (k, v) :: rest else (k', v') :: mapInsert rest k v

/-- The mutable state of the per-branch parse loop in
`analyzeGitHistoryByBranch`: the three `current*` locals plus the
contributions map of the branch being built. -/
structure ParseState where
  currentCommit : String
  currentDate : String
  currentEmail : String
  contributions : List (String × UserContribution)
  deriving DecidableEq, Repr

/-- The state at the top of each branch's loop: empty locals, empty map. -/
def initialState : ParseState :=
  { currentCommit := "", currentDate := "", currentEmail := "", contributions := [] }

/-- The bucket key chosen by `defaultGroupByForLogDate`: the source tests
`== "month"` and otherwise takes the week branch. -/
def bucketKey (groupBy : String) (y m d : Nat) : String :=
  if groupBy = "month" then monthBucketKey y m else weekBucketKey y m d

/-- The comma-split fields of a commit-header line (`strings.Split(line, ",")`). -/
def headerParts (line : String) : List (List Char) :=
  splitOnChar ',' line.data

/-- Field `parts[0]` of a header line: the author email. -/
def headerEmail (line : String) : String :=
  strOf ((headerParts line).getD 0 [])

/-- Field `parts[1]` of a header line: the raw date field. -/
def headerDate (line : String) : String :=
  strOf ((headerParts line).getD 1 [])

/-- Field `parts[2]` of a header line: the commit hash. -/
def headerCommit (line : String) : String :=
  strOf ((headerParts line).getD 2 [])

/-- The tab-split fields of a change-stat line (`strings.Split(line, "\t")`). -/
def statParts (line : String) : List (List Char) :=
  splitOnChar '\t' line.data

/-- Value `strconv.Atoi(parts[0])` of a stat line, error ignored. -/
def statAdded (line : String) : Int :=
  atoiChars ((statParts line).getD 0 [])

/-- Value `strconv.Atoi(parts[1])` of a stat line, error ignored. -/
def statRemoved (line : String) : Int :=
  atoiChars ((statParts line).getD 1 [])

/-- Increment `CommitCount` on one record. -/
def bumpCommit (r : UserContribution) : UserContribution :=
  { r with commitCount := r.commitCount + 1 }

/-- The timeline mutation of one record for a header's date field: a bucket
increment when the date parses, nothing otherwise. -/
def bumpTimeline (groupBy dateStr : String) (r : UserContribution) : UserContribution :=
  match parseDate dateStr with
  | some (y, m, d) =>
    { r with contributionTimeline :=
        bumpKey r.contributionTimeline (bucketKey groupBy y m d) }
  | none => r

/-- The three `+=` statements of the stat branch on one record. -/
def addStat (line : String) (r : UserContribution) : UserContribution :=
  { r with
    linesAdded := r.linesAdded + statAdded line
    linesRemoved := r.linesRemoved + statRemoved line
    linesEdited := r.linesEdited + (statAdded line + statRemoved line) }

/-- One iteration of the source's `for _, line := range linesLog` loop:
classify the line as commit header (contains "@" and "," and splits into at
least three fields), change-stat line (contains a tab while a commit is
current), or ignored, and update the state exactly as the source does. -/
def processLine (groupBy fileFilter : String) (st : ParseState) (line : String) :
    ParseState :=
  if containsChar line '@' = true ∧ containsChar line ',' = true then
    if 3 ≤ (headerParts line).length then
      let email := headerEmail line
      let contribs1 :=
        updateAt (ensureRecord st.contributions email fileFilter) email bumpCommit
      let contribs2 :=
        match parseDate (headerDate line) with
        | some (y, m, d) =>
          updateAt contribs1 email
            (fun r =>
              { r with contributionTimeline :=
                  bumpKey r.contributionTimeline (bucketKey groupBy y m d) })
        | none => contribs1
      { currentCommit := headerCommit line
        currentDate := headerDate line
        currentEmail := email
        contributions := contribs2 }
    else st
  else if containsChar line '\t' = true ∧ st.currentCommit ≠ "" then
    if (statParts line).length = 3 ∧ (statParts line).getD 0 [] ≠ ['-'] ∧
        (statParts line).getD 1 [] ≠ ['-'] then
      { st with contributions := updateAt st.contributions st.currentEmail (addStat line) }
    else st
  else st

/-- The whole per-branch parse loop over the split log output. -/
def processLines (groupBy fileFilter : String) (lines : List String) : ParseState :=
  lines.foldl (processLine groupBy fileFilter) initialState

/-- The `commitCount` visible for an author (0 when the author is absent,
matching Go's zero-value map read). -/
def commitCountOf (m : List (String × UserContribution)) (email : String) : Nat :=
  match mapLookup m email with
  | some r => r.commitCount
  | none => 0

/-- The timeline visible for an author (empty when the author is absent). -/
def timelineOf (m : List (String × UserContribution)) (email : String) :
    List (String × Nat) :=
  match mapLookup m email with
  | some r => r.contributionTimeline
  | none => []

/-- Go `unicode.IsSpace`, restricted to the code points it accepts. -/
def isSpaceChar (c : Char) : Bool :=
  c.toNat = 9 || c.toNat = 10 || c.toNat = 11 || c.toNat = 12 || c.toNat = 13 ||
    c.toNat = 32 || c.toNat = 133 || c.toNat = 160

/-- Model of Go `strings.TrimSpace`. -/
def trimChars (l : List Char) : List Char :=
  ((l.dropWhile isSpaceChar).reverse.dropWhile isSpaceChar).reverse

/-- The `BranchReport` record of the source. -/
structure BranchReport where
  branchName : String
  contributions : List (String × UserContribution)
  deriving DecidableEq, Repr

/-- The source's range resolution (lines 253–267): start from the branch
name; for a branch other than the main branch, a successful `git merge-base`
replaces it with `<trimmed ancestor>..<branch>`, and a failed one leaves the
full-history fallback; the main branch never performs the lookup. -/
def resolveLogRange (mainBranch branchName : String) (mergeBase : Option String) :
    String :=
  if branchName ≠ mainBranch then
    match mergeBase with
    | some mb => strOf (trimChars mb.data) ++ ".." ++ branchName
    | none => branchName
  else branchName

/-- The argument list of the `git log` invocation: with a file filter the
query uses the resolved range and the filter pathspec; without one it uses
the bare branch name. -/
def gitLogArgs (branchName logRange fileFilter : String) : List String :=
  if fileFilter ≠ "" then
    ["log", "--pretty=format:%ae,%ad,%H", "--date=short", "--numstat",
      logRange, "--", fileFilter]
  else
    ["log", "--pretty=format:%ae,%ad,%H", "--date=short", "--numstat", branchName]

/-- One iteration of the branch loop: trim the name, skip blanks, resolve
the range, register an empty report, query the log (a `none` from the oracle
is a failed command, handled by `continue`), parse the output. -/
def processBranch (mainBranch groupBy fileFilter : String)
    (mergeBase : String → Option String) (gitLog : List String → Option String)
    (reports : List (String × BranchReport)) (rawName : String) :
    List (String × BranchReport) :=
  let branchName := strOf (trimChars rawName.data)
  if branchName = "" then reports
  else
    let logRange := resolveLogRange mainBranch branchName (mergeBase branchName)
    let reports1 := mapInsert reports branchName ⟨branchName, []⟩
    match gitLog (gitLogArgs branchName logRange fileFilter) with
    | none => reports1
    | some outputLog =>
      let linesLog := (splitOnChar '\n' outputLog.data).map strOf
      let st := processLines groupBy fileFilter linesLog
      mapInsert reports1 branchName ⟨branchName, st.contributions⟩

/-- The whole of `analyzeGitHistoryByBranch` after a successful
`git branch` call, with the two git subcommands as oracles: fold the branch
loop over the split branch list, then delete every report whose
contributions map is empty. -/
def analyzeGitHistoryByBranch (branchesOutput mainBranch groupBy fileFilter : String)
    (mergeBase : String → Option String) (gitLog : List String → Option String) :
    List (String × BranchReport) :=
  let branchNames := (splitOnChar '\n' branchesOutput.data).map strOf
  let reports := branchNames.foldl
    (processBranch mainBranch groupBy fileFilter mergeBase gitLog) []
  reports.filter (fun p => !p.2.contributions.isEmpty)

/-! Lookup lemmas for the association-list map model. -/

theorem mapLookup_append {α : Type} (m₁ m₂ : List (String × α)) (a : String) :
    mapLookup (m₁ ++ m₂) a =
      match mapLookup m₁ a with
      | some v => some v
      | none => mapLookup m₂ a := by
  induction m₁ with
  | nil => simp [mapLookup]
  | cons hd tl ih =>
    obtain ⟨k, v⟩ := hd
    by_cases h : k = a <;> simp [mapLookup, h, ih]

theorem mapLookup_updateAt {α : Type} (m : List (String × α)) (k a : String)
    (f : α → α) :
    mapLookup (updateAt m k f) a =
      if k = a then (mapLookup m a).map f else mapLookup m a := by
  induction m with
  | nil => simp [mapLookup, updateAt]
  | cons hd tl ih =>
    obtain ⟨k', v⟩ := hd
    by_cases h1 : k' = k
    · subst h1
      by_cases h2 : k' = a <;> simp [mapLookup, updateAt, h2]
    · by_cases h2 : k' = a
      · subst h2
        have : ¬k = k' := fun h => h1 h.symm
        simp [mapLookup, updateAt, h1, this]
      · simp [mapLookup, updateAt, h1, h2, ih]

theorem mapLookup_ensureRecord (m : List (String × UserContribution))
    (email ff e : String) :
    mapLookup (ensureRecord m email ff) e =
      if email = e then some ((mapLookup m email).getD (freshRecord email ff))
      else mapLookup m e := by
  unfold ensureRecord
  cases h : mapLookup m email with
  | some r =>
    by_cases he : email = e
    · subst he
      simp [h]
    · simp [he]
  | none =>
    rw [mapLookup_append]
    by_cases he : email = e
    · subst he
      simp [h, mapLookup]
    · cases hm : mapLookup m e <;> simp [mapLookup, he, hm]

theorem mapLookup_mapInsert {α : Type} (m : List (String × α)) (k a : String)
    (v : α) :
    mapLookup (mapInsert m k v) a =
      if k = a then some v else mapLookup m a := by
  induction m with
  | nil => simp [mapLookup, mapInsert]
  | cons hd tl ih =>
    obtain ⟨k', w⟩ := hd
    by_cases h1 : k' = k
    · subst h1
      by_cases h2 : k' = a <;> simp [mapLookup, mapInsert, h2]
    · by_cases h2 : k' = a
      · subst h2
        have : ¬k = k' := fun h => h1 h.symm
        simp [mapLookup, mapInsert, h1, this]
      · simp [mapLookup, mapInsert, h1, h2, ih]

/-! Characterizations of one step of the line loop. -/

theorem processLine_header_currents (groupBy fileFilter : String) (st : ParseState)
    (line : String)
    (h1 : containsChar line '@' = true) (h2 : containsChar line ',' = true)
    (h3 : 3 ≤ (headerParts line).length) :
    (processLine groupBy fileFilter st line).currentEmail = headerEmail line ∧
      (processLine groupBy fileFilter st line).currentCommit = headerCommit line ∧
      (processLine groupBy fileFilter st line).currentDate = headerDate line := by
  unfold processLine
  rw [if_pos ⟨h1, h2⟩, if_pos h3]
  exact ⟨rfl, rfl, rfl⟩

theorem processLine_header_lookup (groupBy fileFilter : String) (st : ParseState)
    (line : String)
    (h1 : containsChar line '@' = true) (h2 : containsChar line ',' = true)
    (h3 : 3 ≤ (headerParts line).length) (e : String) :
    mapLookup (processLine groupBy fileFilter st line).contributions e =
      if headerEmail line = e then
        some (bumpTimeline groupBy (headerDate line)
          (bumpCommit ((mapLookup st.contributions (headerEmail line)).getD
            (freshRecord (headerEmail line) fileFilter))))
      else mapLookup st.contributions e := by
  unfold processLine
  rw [if_pos ⟨h1, h2⟩, if_pos h3]
  simp only
  cases hd : parseDate (headerDate line) with
  | none =>
    rw [mapLookup_updateAt, mapLookup_ensureRecord]
    by_cases he : headerEmail line = e
    · simp [he, bumpTimeline, hd]
    · simp [he]
  | some ymd =>
    obtain ⟨y, m, d⟩ := ymd
    rw [mapLookup_updateAt, mapLookup_updateAt, mapLookup_ensureRecord]
    by_cases he : headerEmail line = e
    · simp [he, bumpTimeline, hd]
    · simp [he]

theorem processLine_header_small (groupBy fileFilter : String) (st : ParseState)
    (line : String)
    (h12 : containsChar line '@' = true ∧ containsChar line ',' = true)
    (h3 : ¬3 ≤ (headerParts line).length) :
    processLine groupBy fileFilter st line = st := by
  unfold processLine
  rw [if_pos h12, if_neg h3]

theorem processLine_stat_eq (groupBy fileFilter : String) (st : ParseState)
    (line : String)
    (hn : ¬(containsChar line '@' = true ∧ containsChar line ',' = true))
    (ht : containsChar line '\t' = true) (hc : st.currentCommit ≠ "")
    (hp : (statParts line).length = 3)
    (h0 : (statParts line).getD 0 [] ≠ ['-'])
    (h1 : (statParts line).getD 1 [] ≠ ['-']) :
    processLine groupBy fileFilter st line =
      { st with contributions :=
          updateAt st.contributions st.currentEmail (addStat line) } := by
  unfold processLine
  rw [if_neg hn, if_pos ⟨ht, hc⟩, if_pos ⟨hp, h0, h1⟩]

theorem processLine_stat_skip (groupBy fileFilter : String) (st : ParseState)
    (line : String)
    (hn : ¬(containsChar line '@' = true ∧ containsChar line ',' = true))
    (hno : ¬((statParts line).length = 3 ∧ (statParts line).getD 0 [] ≠ ['-'] ∧
        (statParts line).getD 1 [] ≠ ['-'])) :
    processLine groupBy fileFilter st line = st := by
  unfold processLine
  rw [if_neg hn]
  by_cases htc : containsChar line '\t' = true ∧ st.currentCommit ≠ ""
  · rw [if_pos htc, if_neg hno]
  · rw [if_neg htc]

theorem processLine_other (groupBy fileFilter : String) (st : ParseState)
    (line : String)
    (hn : ¬(containsChar line '@' = true ∧ containsChar line ',' = true))
    (hs : ¬(containsChar line '\t' = true ∧ st.currentCommit ≠ "")) :
    processLine groupBy fileFilter st line = st := by
  unfold processLine
  rw [if_neg hn, if_neg hs]

/-! Generic fold invariance and idle-state lemmas. -/

theorem foldl_preserves {σ α : Type} (f : σ → α → σ) (P : σ → Prop)
    (h : ∀ s l, P s → P (f s l)) :
    ∀ (lines : List α) (s : σ), P s → P (lines.foldl f s) := by
  intro lines
  induction lines with
  | nil => intro s hs; exact hs
  | cons l rest ih => intro s hs; exact ih _ (h _ _ hs)

theorem processLine_initial (groupBy fileFilter : String) (line : String)
    (h : ¬(containsChar line '@' = true ∧ containsChar line ',' = true ∧
        3 ≤ (headerParts line).length)) :
    processLine groupBy fileFilter initialState line = initialState := by
  by_cases h12 : containsChar line '@' = true ∧ containsChar line ',' = true
  · exact processLine_header_small groupBy fileFilter initialState line h12
      (fun h3 => h ⟨h12.1, h12.2, h3⟩)
  · exact processLine_other groupBy fileFilter initialState line h12
      (fun hh => hh.2 rfl)

theorem processLines_no_header (groupBy fileFilter : String) (lines : List String)
    (h : ∀ l ∈ lines, ¬(containsChar l '@' = true ∧ containsChar l ',' = true ∧
        3 ≤ (headerParts l).length)) :
    processLines groupBy fileFilter lines = initialState := by
  induction lines with
  | nil => rfl
  | cons l rest ih =>
    have h0 := processLine_initial groupBy fileFilter l (h l (List.mem_cons_self l rest))
    show List.foldl (processLine groupBy fileFilter) initialState (l :: rest) = initialState
    rw [List.foldl_cons, h0]
    exact ih (fun l' hl' => h l' (List.mem_cons_of_mem _ hl'))

/-! Field-preservation lemmas for the record transforms. -/

theorem bumpTimeline_commitCount (groupBy dateStr : String) (r : UserContribution) :
    (bumpTimeline groupBy dateStr r).commitCount = r.commitCount := by
  unfold bumpTimeline
  cases parseDate dateStr with
  | none => rfl
  | some ymd =>
    obtain ⟨y, m, d⟩ := ymd
    rfl

theorem bumpTimeline_linesAdded (groupBy dateStr : String) (r : UserContribution) :
    (bumpTimeline groupBy dateStr r).linesAdded = r.linesAdded := by
  unfold bumpTimeline
  cases parseDate dateStr with
  | none => rfl
  | some ymd =>
    obtain ⟨y, m, d⟩ := ymd
    rfl

theorem bumpTimeline_linesRemoved (groupBy dateStr : String) (r : UserContribution) :
    (bumpTimeline groupBy dateStr r).linesRemoved = r.linesRemoved := by
  unfold bumpTimeline
  cases parseDate dateStr with
  | none => rfl
  | some ymd =>
    obtain ⟨y, m, d⟩ := ymd
    rfl

theorem bumpTimeline_linesEdited (groupBy dateStr : String) (r : UserContribution) :
    (bumpTimeline groupBy dateStr r).linesEdited = r.linesEdited := by
  unfold bumpTimeline
  cases parseDate dateStr with
  | none => rfl
  | some ymd =>
    obtain ⟨y, m, d⟩ := ymd
    rfl

theorem bumpTimeline_none (groupBy dateStr : String) (r : UserContribution)
    (h : parseDate dateStr = none) :
    bumpTimeline groupBy dateStr r = r := by
  unfold bumpTimeline
  rw [h]

theorem bumpTimeline_some (groupBy dateStr : String) (r : UserContribution)
    (y m d : Nat) (h : parseDate dateStr = some (y, m, d)) :
    bumpTimeline groupBy dateStr r =
      { r with contributionTimeline :=
          bumpKey r.contributionTimeline (bucketKey groupBy y m d) } := by
  unfold bumpTimeline
  rw [h]

theorem gitLogArgs_no_filter (branchName logRange : String) :
    gitLogArgs branchName logRange "" =
      ["log", "--pretty=format:%ae,%ad,%H", "--date=short", "--numstat", branchName] := by
  unfold gitLogArgs
  rw [if_neg (fun h => h rfl)]

/-! Claim theorems. -/

/-- Claim C2: for every parsed commit-header line (containing "@" and "," and
splitting into at least three comma-separated fields), the commitCount of the
author named in the first field increases by exactly one regardless of whether
the date field parses; and when the date fails to parse, the author's timeline
is unchanged — the commit is counted but contributes no bucket entry. -/
theorem commit_header_increments_commit_count (groupBy fileFilter : String)
    (st : ParseState) (line : String)
    (h1 : containsChar line '@' = true) (h2 : containsChar line ',' = true)
    (h3 : 3 ≤ (headerParts line).length) :
    commitCountOf (processLine groupBy fileFilter st line).contributions
        (headerEmail line) =
      commitCountOf st.contributions (headerEmail line) + 1 ∧
    (parseDate (headerDate line) = none →
      timelineOf (processLine groupBy fileFilter st line).contributions
          (headerEmail line) =
        timelineOf st.contributions (headerEmail line)) := by
  have hl := processLine_header_lookup groupBy fileFilter st line h1 h2 h3
    (headerEmail line)
  rw [if_pos rfl] at hl
  constructor
  · simp only [commitCountOf, hl, bumpTimeline_commitCount]
    cases hm : mapLookup st.contributions (headerEmail line) with
    | none => simp [hm, bumpCommit, freshRecord]
    | some r => simp [hm, bumpCommit]
  · intro hdate
    rw [timelineOf, hl, bumpTimeline_none _ _ _ hdate]
    cases hm : mapLookup st.contributions (headerEmail line) with
    | none => simp [timelineOf, hm, bumpCommit, freshRecord]
    | some r => simp [timelineOf, hm, bumpCommit]

/-- Claim C2 witness: a header line with an unparsable date still counts the
commit and adds no timeline bucket. -/
theorem commit_header_increments_commit_count_witness :
    commitCountOf (processLine "month" "" initialState "a@x.com,notadate,h1").contributions
        (headerEmail "a@x.com,notadate,h1") =
      commitCountOf initialState.contributions (headerEmail "a@x.com,notadate,h1") + 1 ∧
    (parseDate (headerDate "a@x.com,notadate,h1") = none →
      timelineOf (processLine "month" "" initialState "a@x.com,notadate,h1").contributions
          (headerEmail "a@x.com,notadate,h1") =
        timelineOf initialState.contributions (headerEmail "a@x.com,notadate,h1")) :=
  commit_header_increments_commit_count "month" "" initialState "a@x.com,notadate,h1"
    (by decide) (by decide) (by decide)

/-- Claim C1 counterexample: in week mode the 2021-01-01 commit (ISO week 53
of ISO week-year 2020) is recorded under the calendar-year key "2021-53",
not the ISO week-year key "2020-53" the claim describes. -/
theorem week_bucket_uses_calendar_year_counterexample :
    timelineOf (processLines "week" "" ["a@x.com,2021-01-01,h1"]).contributions
        "a@x.com" = [("2021-53", 1)] ∧
    weekBucketKey 2021 1 1 = "2021-53" ∧
    isoWeekYearKeySpec 2021 1 1 = "2020-53" ∧
    ("2021-53" : String) ≠ "2020-53" := by
  refine ⟨by decide, by decide, by decide, by decide⟩

/-- Claim C1 (amended): in week grouping mode, for every commit-header line
whose date parses, the bucket key bumped in the author's timeline is
`weekBucketKey`: the calendar year of the commit date together with the
ISO-8601 week number zero-padded to two digits — a deterministic function of
the commit date alone. -/
theorem week_bucket_key_amended (fileFilter : String) (st : ParseState)
    (line : String) (y m d : Nat)
    (h1 : containsChar line '@' = true) (h2 : containsChar line ',' = true)
    (h3 : 3 ≤ (headerParts line).length)
    (hd : parseDate (headerDate line) = some (y, m, d)) :
    timelineOf (processLine "week" fileFilter st line).contributions
        (headerEmail line) =
      bumpKey (timelineOf st.contributions (headerEmail line))
        (weekBucketKey y m d) := by
  have hl := processLine_header_lookup "week" fileFilter st line h1 h2 h3
    (headerEmail line)
  rw [if_pos rfl] at hl
  have hkey : bucketKey "week" y m d = weekBucketKey y m d := by
    unfold bucketKey
    rw [if_neg (by decide)]
  rw [timelineOf, hl, bumpTimeline_some _ _ _ y m d hd, hkey]
  cases hm : mapLookup st.contributions (headerEmail line) with
  | none => simp [timelineOf, hm, bumpCommit, freshRecord]
  | some r => simp [timelineOf, hm, bumpCommit]

/-- Claim C1 (amended) witness: the 2024-01-10 commit lands in week bucket
"2024-02" of calendar year 2024. -/
theorem week_bucket_key_amended_witness :
    timelineOf (processLine "week" "" initialState "a@x.com,2024-01-10,h1").contributions
        (headerEmail "a@x.com,2024-01-10,h1") =
      bumpKey (timelineOf initialState.contributions (headerEmail "a@x.com,2024-01-10,h1"))
        (weekBucketKey 2024 1 10) :=
  week_bucket_key_amended "" initialState "a@x.com,2024-01-10,h1" 2024 1 10
    (by decide) (by decide) (by decide) (by decide)

/-- Claim C4: a change-stat line whose added or removed field is the exact
binary-file sentinel "-" leaves the whole parser state — every counter of
every record and every timeline — unchanged, and raises no error. -/
theorem binary_sentinel_line_is_noop (groupBy fileFilter : String)
    (st : ParseState) (line : String)
    (hn : ¬(containsChar line '@' = true ∧ containsChar line ',' = true))
    (_ht : containsChar line '\t' = true)
    (hs : (statParts line).getD 0 [] = ['-'] ∨ (statParts line).getD 1 [] = ['-']) :
    processLine groupBy fileFilter st line = st := by
  apply processLine_stat_skip groupBy fileFilter st line hn
  rintro ⟨_, h0, h1⟩
  rcases hs with h | h
  · exact h0 h
  · exact h1 h

/-- Claim C4 witness: the sentinel line with both fields "-" right after a valid
header changes nothing. -/
theorem binary_sentinel_line_is_noop_witness :
    processLine "month" "" (processLines "month" "" ["a@x.com,2024-01-10,h1"])
        "-\t-\tbinary.png" =
      processLines "month" "" ["a@x.com,2024-01-10,h1"] :=
  binary_sentinel_line_is_noop "month" ""
    (processLines "month" "" ["a@x.com,2024-01-10,h1"]) "-\t-\tbinary.png"
    (by decide) (by decide) (Or.inl (by decide))

/-- Claim C9: only the exact string "-" is the binary sentinel: "-3" parses
as the negative integer -3 and is added (driving linesAdded and linesEdited
negative), a non-numeric field like "2x" contributes zero, and a line whose
first field is exactly "-" is skipped whole. -/
theorem dash_sentinel_exact_and_negative_numerals :
    atoiChars ("-3").data = -3 ∧
    atoiChars ("2x").data = 0 ∧
    mapLookup (processLines "month" ""
        ["a@x.com,2024-01-10,h1", "-3\t1\tf.go"]).contributions "a@x.com" =
      some ⟨"a@x.com", 1, [("2024-JAN", 1)], -3, 1, -2, ""⟩ ∧
    (⟨"a@x.com", 1, [("2024-JAN", 1)], -3, 1, -2, ""⟩ : UserContribution).linesAdded < 0 ∧
    processLines "month" "" ["a@x.com,2024-01-10,h1", "-\t1\tf.go"] =
      processLines "month" "" ["a@x.com,2024-01-10,h1"] := by
  refine ⟨by decide, by decide, by decide, by decide, by decide⟩

/-- One line of processing preserves the lines-accounting invariant. -/
theorem processLine_preserves_lines_inv (groupBy fileFilter : String)
    (st : ParseState) (line : String)
    (hP : ∀ e r, mapLookup st.contributions e = some r →
      r.linesEdited = r.linesAdded + r.linesRemoved) :
    ∀ e r, mapLookup (processLine groupBy fileFilter st line).contributions e =
        some r →
      r.linesEdited = r.linesAdded + r.linesRemoved := by
  intro e r hr
  by_cases h12 : containsChar line '@' = true ∧ containsChar line ',' = true
  · by_cases h3 : 3 ≤ (headerParts line).length
    · rw [processLine_header_lookup groupBy fileFilter st line h12.1 h12.2 h3] at hr
      by_cases he : headerEmail line = e
      · rw [if_pos he] at hr
        have hr' := Option.some.inj hr
        subst hr'
        rw [bumpTimeline_linesEdited, bumpTimeline_linesAdded, bumpTimeline_linesRemoved]
        cases hm : mapLookup st.contributions (headerEmail line) with
        | none => simp [hm, bumpCommit, freshRecord]
        | some r0 => simpa [hm, bumpCommit] using hP _ r0 hm
      · rw [if_neg he] at hr
        exact hP e r hr
    · rw [processLine_header_small groupBy fileFilter st line h12 h3] at hr
      exact hP e r hr
  · by_cases htc : containsChar line '\t' = true ∧ st.currentCommit ≠ ""
    · by_cases hg : (statParts line).length = 3 ∧ (statParts line).getD 0 [] ≠ ['-'] ∧
          (statParts line).getD 1 [] ≠ ['-']
      · rw [processLine_stat_eq groupBy fileFilter st line h12 htc.1 htc.2
          hg.1 hg.2.1 hg.2.2] at hr
        rw [mapLookup_updateAt] at hr
        by_cases he : st.currentEmail = e
        · rw [if_pos he] at hr
          cases hm : mapLookup st.contributions e with
          | none =>
            rw [hm] at hr
            simp at hr
          | some r0 =>
            rw [hm] at hr
            simp only [Option.map_some'] at hr
            have hr' := Option.some.inj hr
            subst hr'
            have h0 := hP e r0 hm
            simp only [addStat]
            omega
        · rw [if_neg he] at hr
          exact hP e r hr
      · rw [processLine_stat_skip groupBy fileFilter st line h12 hg] at hr
        exact hP e r hr
    · rw [processLine_other groupBy fileFilter st line h12 htc] at hr
      exact hP e r hr

/-- Claim C3: in every state reachable by parsing a stream, every record
satisfies linesEdited = linesAdded + linesRemoved, and a numeric
non-sentinel stat line adds the two parsed values to linesAdded and
linesRemoved and their sum to linesEdited. -/
theorem lines_edited_invariant :
    (∀ (groupBy fileFilter : String) (lines : List String) (e : String)
        (r : UserContribution),
      mapLookup (processLines groupBy fileFilter lines).contributions e = some r →
      r.linesEdited = r.linesAdded + r.linesRemoved) ∧
    (∀ (groupBy fileFilter : String) (st : ParseState) (line : String)
        (r : UserContribution),
      ¬(containsChar line '@' = true ∧ containsChar line ',' = true) →
      containsChar line '\t' = true → st.currentCommit ≠ "" →
      (statParts line).length = 3 → (statParts line).getD 0 [] ≠ ['-'] →
      (statParts line).getD 1 [] ≠ ['-'] →
      mapLookup st.contributions st.currentEmail = some r →
      mapLookup (processLine groupBy fileFilter st line).contributions
          st.currentEmail =
        some { r with
               linesAdded := r.linesAdded + statAdded line,
               linesRemoved := r.linesRemoved + statRemoved line,
               linesEdited := r.linesEdited + (statAdded line + statRemoved line) }) := by
  constructor
  · intro groupBy fileFilter lines e r hr
    exact foldl_preserves (processLine groupBy fileFilter)
      (fun st => ∀ e r, mapLookup st.contributions e = some r →
        r.linesEdited = r.linesAdded + r.linesRemoved)
      (fun s l hP => processLine_preserves_lines_inv groupBy fileFilter s l hP)
      lines initialState (fun e r h => by simp [initialState, mapLookup] at h)
      e r hr
  · intro groupBy fileFilter st line r h12 ht hc hp h0 h1 hr
    rw [processLine_stat_eq groupBy fileFilter st line h12 ht hc hp h0 h1,
      mapLookup_updateAt, if_pos rfl, hr]
    rfl

/-- Claim C3 witness: after the spec's example stream the record reads
3 added, 1 removed, 4 edited, and 4 = 3 + 1. -/
theorem lines_edited_invariant_witness :
    (⟨"a@x.com", 1, [("2024-JAN", 1)], 3, 1, 4, ""⟩ : UserContribution).linesEdited =
      (⟨"a@x.com", 1, [("2024-JAN", 1)], 3, 1, 4, ""⟩ : UserContribution).linesAdded +
        (⟨"a@x.com", 1, [("2024-JAN", 1)], 3, 1, 4, ""⟩ : UserContribution).linesRemoved :=
  lines_edited_invariant.1 "month" "" ["a@x.com,2024-01-10,h1", "3\t1\tfile.go"]
    "a@x.com" ⟨"a@x.com", 1, [("2024-JAN", 1)], 3, 1, 4, ""⟩ (by decide)

/-- Claim C8: a tab-containing change-stat line arriving before any
commit-header line has been processed in the stream is ignored: the parser
is still in its initial (idle) state and the line changes nothing. -/
theorem idle_ignores_stat_lines (groupBy fileFilter : String) (pre : List String)
    (line : String)
    (hpre : ∀ l ∈ pre, ¬(containsChar l '@' = true ∧ containsChar l ',' = true ∧
        3 ≤ (headerParts l).length))
    (_ht : containsChar line '\t' = true)
    (hn : ¬(containsChar line '@' = true ∧ containsChar line ',' = true)) :
    processLines groupBy fileFilter pre = initialState ∧
    processLines groupBy fileFilter (pre ++ [line]) =
      processLines groupBy fileFilter pre := by
  have h0 := processLines_no_header groupBy fileFilter pre hpre
  refine ⟨h0, ?_⟩
  have happ : processLines groupBy fileFilter (pre ++ [line]) =
      processLine groupBy fileFilter (processLines groupBy fileFilter pre) line := by
    simp [processLines, List.foldl_append]
  rw [happ, h0]
  exact processLine_initial groupBy fileFilter line (fun hh => hn ⟨hh.1, hh.2.1⟩)

/-- Claim C8 witness: a stat line after only a non-header line alters no state. -/
theorem idle_ignores_stat_lines_witness :
    processLines "month" "" ["some random text"] = initialState ∧
    processLines "month" "" (["some random text"] ++ ["3\t1\tfile.go"]) =
      processLines "month" "" ["some random text"] :=
  idle_ignores_stat_lines "month" "" ["some random text"] "3\t1\tfile.go"
    (by decide) (by decide) (by decide)

/-- One line of processing preserves "a current commit implies the current
author's record exists". -/
theorem processLine_preserves_email_present (groupBy fileFilter : String)
    (st : ParseState) (line : String)
    (hP : st.currentCommit ≠ "" →
      (mapLookup st.contributions st.currentEmail).isSome = true) :
    (processLine groupBy fileFilter st line).currentCommit ≠ "" →
    (mapLookup (processLine groupBy fileFilter st line).contributions
      (processLine groupBy fileFilter st line).currentEmail).isSome = true := by
  intro hc
  by_cases h12 : containsChar line '@' = true ∧ containsChar line ',' = true
  · by_cases h3 : 3 ≤ (headerParts line).length
    · have hcur := processLine_header_currents groupBy fileFilter st line h12.1 h12.2 h3
      rw [hcur.1, processLine_header_lookup groupBy fileFilter st line h12.1 h12.2 h3,
        if_pos rfl]
      rfl
    · rw [processLine_header_small groupBy fileFilter st line h12 h3]
      rw [processLine_header_small groupBy fileFilter st line h12 h3] at hc
      exact hP hc
  · by_cases htc : containsChar line '\t' = true ∧ st.currentCommit ≠ ""
    · by_cases hg : (statParts line).length = 3 ∧ (statParts line).getD 0 [] ≠ ['-'] ∧
          (statParts line).getD 1 [] ≠ ['-']
      · have heq := processLine_stat_eq groupBy fileFilter st line h12 htc.1 htc.2
          hg.1 hg.2.1 hg.2.2
        rw [heq]
        show (mapLookup (updateAt st.contributions st.currentEmail (addStat line))
          st.currentEmail).isSome = true
        rw [mapLookup_updateAt, if_pos rfl]
        have hs := hP htc.2
        cases hm : mapLookup st.contributions st.currentEmail with
        | none =>
          rw [hm] at hs
          simp at hs
        | some r => rfl
      · rw [processLine_stat_skip groupBy fileFilter st line h12 hg]
        rw [processLine_stat_skip groupBy fileFilter st line h12 hg] at hc
        exact hP hc
    · rw [processLine_other groupBy fileFilter st line h12 htc]
      rw [processLine_other groupBy fileFilter st line h12 htc] at hc
      exact hP hc

/-- Claim C10: in every reachable parse state in which a commit is current
(the marker is non-empty), the current author's record is already present in
the contributions map, so the stat-line update never accesses a missing
record. -/
theorem stat_update_record_present (groupBy fileFilter : String)
    (lines : List String)
    (h : (processLines groupBy fileFilter lines).currentCommit ≠ "") :
    (mapLookup (processLines groupBy fileFilter lines).contributions
      (processLines groupBy fileFilter lines).currentEmail).isSome = true :=
  foldl_preserves (processLine groupBy fileFilter)
    (fun st => st.currentCommit ≠ "" →
      (mapLookup st.contributions st.currentEmail).isSome = true)
    (fun s l hP => processLine_preserves_email_present groupBy fileFilter s l hP)
    lines initialState (fun hc => absurd rfl hc) h

/-- Claim C10 witness: after one header the current email's record exists. -/
theorem stat_update_record_present_witness :
    (mapLookup (processLines "month" "" ["a@x.com,2024-01-10,h1"]).contributions
      (processLines "month" "" ["a@x.com,2024-01-10,h1"]).currentEmail).isSome = true :=
  stat_update_record_present "month" "" ["a@x.com,2024-01-10,h1"] (by decide)

/-- Claim C5: every BranchReport surviving into the final report mapping has
at least one author; a branch whose parse yielded zero authors (for example
after a failed log command) has been removed by the cleanup pass. -/
theorem final_reports_have_authors
    (branchesOutput mainBranch groupBy fileFilter : String)
    (mergeBase : String → Option String) (gitLog : List String → Option String)
    (b : String) (r : BranchReport)
    (h : (b, r) ∈ analyzeGitHistoryByBranch branchesOutput mainBranch groupBy
        fileFilter mergeBase gitLog) :
    r.contributions ≠ [] := by
  unfold analyzeGitHistoryByBranch at h
  rw [List.mem_filter] at h
  intro hnil
  have h2 := h.2
  rw [hnil] at h2
  simp at h2

/-- Claim C5 witness: one branch, one parsed commit: the surviving report
has the author. -/
theorem final_reports_have_authors_witness :
    (⟨"main", [("a@x.com", ⟨"a@x.com", 1, [("2024-JAN", 1)], 0, 0, 0, ""⟩)]⟩ :
        BranchReport).contributions ≠ [] :=
  final_reports_have_authors "main" "main" "month" "" (fun _ => none)
    (fun _ => some "a@x.com,2024-01-10,h1") "main"
    ⟨"main", [("a@x.com", ⟨"a@x.com", 1, [("2024-JAN", 1)], 0, 0, 0, ""⟩)]⟩
    (by decide)

/-- Claim C6: for a branch distinct from the main branch, a failed
common-ancestor lookup leaves the full-branch-history fallback (the run
continues), a successful one produces the two-endpoint range
"ancestor..branch", and for the main branch itself the result ignores the
lookup entirely and is the full history of the main branch. -/
theorem range_resolution_fallback (mainBranch branchName ancestor : String)
    (hb : branchName ≠ mainBranch) :
    resolveLogRange mainBranch branchName none = branchName ∧
    resolveLogRange mainBranch branchName (some ancestor) =
      strOf (trimChars ancestor.data) ++ ".." ++ branchName ∧
    (∀ mb : Option String, resolveLogRange mainBranch mainBranch mb = mainBranch) := by
  refine ⟨?_, ?_, ?_⟩
  · unfold resolveLogRange
    rw [if_pos hb]
  · unfold resolveLogRange
    rw [if_pos hb]
  · intro mb
    unfold resolveLogRange
    rw [if_neg (fun h => h rfl)]

/-- Claim C6 witness: concrete fallback, success, and main-branch cases. -/
theorem range_resolution_fallback_witness :
    resolveLogRange "main" "dev" none = "dev" ∧
    resolveLogRange "main" "dev" (some " abc\n") = "abc..dev" ∧
    resolveLogRange "main" "main" none = "main" :=
  ⟨(range_resolution_fallback "main" "dev" " abc\n" (by decide)).1,
   (range_resolution_fallback "main" "dev" " abc\n" (by decide)).2.1,
   (range_resolution_fallback "main" "dev" " abc\n" (by decide)).2.2 none⟩

/-- With no file filter, one branch-loop iteration never consults the
resolved range, so it is independent of the merge-base oracle. -/
theorem processBranch_no_filter (mainBranch groupBy : String)
    (mergeBase mergeBase' : String → Option String)
    (gitLog : List String → Option String)
    (reports : List (String × BranchReport)) (rawName : String) :
    processBranch mainBranch groupBy "" mergeBase gitLog reports rawName =
      processBranch mainBranch groupBy "" mergeBase' gitLog reports rawName := by
  unfold processBranch
  simp only [gitLogArgs_no_filter]

/-- Claim C7: with a non-empty file filter the log query uses the resolved
range and the filter pathspec; with an empty filter the query uses the bare
branch name, and the whole analysis is independent of the merge-base oracle
(the resolved range is never applied). -/
theorem log_query_range_usage :
    (∀ branchName logRange fileFilter : String, fileFilter ≠ "" →
      gitLogArgs branchName logRange fileFilter =
        ["log", "--pretty=format:%ae,%ad,%H", "--date=short", "--numstat",
          logRange, "--", fileFilter]) ∧
    (∀ branchName logRange : String,
      gitLogArgs branchName logRange "" =
        ["log", "--pretty=format:%ae,%ad,%H", "--date=short", "--numstat",
          branchName]) ∧
    (∀ (branchesOutput mainBranch groupBy : String)
        (mergeBase mergeBase' : String → Option String)
        (gitLog : List String → Option String),
      analyzeGitHistoryByBranch branchesOutput mainBranch groupBy "" mergeBase
          gitLog =
        analyzeGitHistoryByBranch branchesOutput mainBranch groupBy "" mergeBase'
          gitLog) := by
  refine ⟨?_, ?_, ?_⟩
  · intro branchName logRange fileFilter hf
    unfold gitLogArgs
    rw [if_pos hf]
  · intro branchName logRange
    exact gitLogArgs_no_filter branchName logRange
  · intro branchesOutput mainBranch groupBy mergeBase mergeBase' gitLog
    unfold analyzeGitHistoryByBranch
    dsimp only
    rw [List.foldl_ext (processBranch mainBranch groupBy "" mergeBase gitLog)
      (processBranch mainBranch groupBy "" mergeBase' gitLog) []
      (fun reports rawName _ => processBranch_no_filter mainBranch groupBy
        mergeBase mergeBase' gitLog reports rawName)]

/-- Claim C7 witness: the two concrete query shapes. -/
theorem log_query_range_usage_witness :
    gitLogArgs "dev" "abc..dev" "*.go" =
      ["log", "--pretty=format:%ae,%ad,%H", "--date=short", "--numstat",
        "abc..dev", "--", "*.go"] ∧
    gitLogArgs "dev" "abc..dev" "" =
      ["log", "--pretty=format:%ae,%ad,%H", "--date=short", "--numstat", "dev"] :=
  ⟨log_query_range_usage.1 "dev" "abc..dev" "*.go" (by decide),
   log_query_range_usage.2.1 "dev" "abc..dev"⟩

end GoGitStats
